import Mathlib

/-!
# Verification of the hydra-neo mixin application engine

Shallow embedding of the core of the `hydra-neo` bundle patcher:

* `src/handling/mapHandler.ts` (`getMethodBodyStart`,
  `getMethodCodeInsideFunction`, `injectAtHead`) and
* the injection stage of `src/runner.ts` (`run`).

Text is modelled as `List Char`, positions as pairs of naturals (`line` is
1-based, `column` is 0-based, exactly the shape `{line, column}` used
throughout the source).  Library calls (babel parse/generate, the source-map
consumer, the file system) are modelled as explicit function parameters at
the call boundary; everything written in the repository itself is translated
structurally.
-/

namespace Hydra

/-- `{line: 1-based, column: 0-based}` position record used everywhere in the
source (`mapHandler.ts`, `runner.ts`). Lines/columns coming out of babel and
the source-map library are non-negative, so we use `Nat`. -/
structure Pos where
  line : Nat
  column : Nat
deriving DecidableEq, Repr

/-- One applied injection as recorded by the runner:
`{ pos: { line, column }, code: string }` (runner.ts line 152). -/
structure Injection where
  pos : Pos
  code : List Char
deriving DecidableEq, Repr

/-- JavaScript `s.split("\n")` on a string modelled as a character list:
splits at every `'\n'`; the empty string yields `[""]`. -/
def splitNl : List Char → List (List Char)
  | [] => [[]]
  | c :: rest =>
    let r := splitNl rest
    if c = '\n' then [] :: r
    else (c :: r.headI) :: r.tail

/-- One iteration of the `for (const inj of previousInjections)` loop of
`injectAtHead` (mapHandler.ts lines 322–337), acting on the accumulator
`(lineOffset, columnOffset)`. -/
def adjustStep (pos : Pos) (acc : Nat × Nat) (inj : Injection) : Nat × Nat :=
  if inj.pos.line < pos.line then
    -- const addedLines = inj.code.split("\n").length - 1;
    -- lineOffset += addedLines;
    -- if (addedLines === 0) columnOffset += inj.code.length;
    let addedLines := (splitNl inj.code).length - 1
    (acc.1 + addedLines,
      if addedLines = 0 then acc.2 + inj.code.length else acc.2)
  else if inj.pos.line = pos.line ∧ inj.pos.column ≤ pos.column then
    -- if (addedLines > 0) lineOffset += addedLines;
    -- else columnOffset += inj.code.length;
    let addedLines := (splitNl inj.code).length - 1
    if addedLines > 0 then (acc.1 + addedLines, acc.2)
    else (acc.1, acc.2 + inj.code.length)
  else acc

/-- The adjusted position computed by `injectAtHead`
(`pos.line + lineOffset`, `pos.column + columnOffset`,
mapHandler.ts lines 319–340). -/
def adjust (pos : Pos) (prev : List Injection) : Pos :=
  let acc := prev.foldl (adjustStep pos) (0, 0)
  ⟨pos.line + acc.1, pos.column + acc.2⟩

/-- The only error `injectAtHead` can raise:
`Adjusted line ... is out of bounds` (mapHandler.ts line 343). -/
inductive InjectError where
  | outOfBounds
deriving DecidableEq, Repr

/-- `injectAtHead(bundle, pos, previousInjections, code)`
(mapHandler.ts lines 311–352).  The JS bounds check
`adjustedLine - 1 < 0 || adjustedLine - 1 >= lines.length` becomes
`adj.line = 0 ∨ lines.length ≤ adj.line - 1` for natural inputs. -/
def injectAtHead (bundle : List Char) (pos : Pos) (prev : List Injection)
    (code : List Char) : Except InjectError (List Char) :=
  let lines := splitNl bundle
  let adj := adjust pos prev
  if adj.line = 0 ∨ lines.length ≤ adj.line - 1 then
    .error .outOfBounds
  else
    let targetLine := lines.getD (adj.line - 1) []
    let newLine := targetLine.take adj.column ++ code ++ targetLine.drop adj.column
    .ok (List.intercalate ['\n'] (lines.set (adj.line - 1) newLine))

/-- Number of `'\n'` characters in a fragment (the claim-side formulation of
`addedLines`). -/
def countNl (s : List Char) : Nat := s.count '\n'

/-- The three-case per-injection contribution exactly as the specification
words it: earlier line → add newline count to the line offset and, when the
code has no newline, its length to the column offset; same line at a column
`≤` the raw column → newline count to the line offset when multi-line,
otherwise length to the column offset; otherwise no effect. -/
def specContribution (pos : Pos) (acc : Nat × Nat) (p : Injection) : Nat × Nat :=
  if p.pos.line < pos.line then
    (acc.1 + countNl p.code,
      if countNl p.code = 0 then acc.2 + p.code.length else acc.2)
  else if p.pos.line = pos.line ∧ p.pos.column ≤ pos.column then
    if 0 < countNl p.code then (acc.1 + countNl p.code, acc.2)
    else (acc.1, acc.2 + p.code.length)
  else acc

/-- A babel key node as far as the source inspects it:
`t.isIdentifier(key, { name })` only ever looks at whether the key is an
`Identifier` with a given name. -/
inductive AKey where
  | ident (name : String)
  | nonIdent
deriving DecidableEq, Repr

mutual

/-- A fragment of the babel AST as the engine inspects it.
Statement/expression nodes other than the four recognized callable shapes
are collapsed into `other`, keeping only their traversal children and their
start location (`loc.start`). A `classMethod`/`objectMethod` node sits, as
in babel, below an enclosing container node (`other`). Every node carries a
`loc` — babel attaches locations to every parsed node. -/
inductive ANode where
  | funcDecl (id : Option String) (body : ANodeList) (loc : Pos)
  | classMethod (key : AKey) (body : ANodeList) (loc : Pos)
  | objectMethod (key : AKey) (body : ANodeList) (loc : Pos)
  | varDecl (decls : ADeclList) (loc : Pos)
  | other (children : ANodeList) (loc : Pos)

/-- A list of sibling AST nodes (a statement list / the children visited by
`@babel/traverse` in order). -/
inductive ANodeList where
  | nil
  | cons (a : ANode) (tl : ANodeList)

/-- A `VariableDeclarator`: its `id` pattern and its initializer. -/
inductive ADecl where
  | mk (id : AKey) (init : AInit)

/-- The list of declarators of a `VariableDeclaration`. -/
inductive ADeclList where
  | nil
  | cons (d : ADecl) (tl : ADeclList)

/-- A declarator initializer as far as the source inspects it:
an arrow function with a block body (with its statement list), an arrow
function with an expression body, any other initializer expression, or no
initializer. -/
inductive AInit where
  | arrowBlock (body : ANodeList)
  | arrowExpr (e : ANode)
  | otherExpr (e : ANode)
  | noInit

end

/-- Whether a statement list is empty (`body.body.length > 0` checks). -/
def ANodeList.isNil : ANodeList → Bool
  | .nil => true
  | .cons _ _ => false

/-- `loc.start` of a node. -/
def locOf : ANode → Pos
  | .funcDecl _ _ l => l
  | .classMethod _ _ l => l
  | .objectMethod _ _ l => l
  | .varDecl _ l => l
  | .other _ l => l

/-- `body.body[0].loc.start` of a non-empty statement list. -/
def ANodeList.firstLoc : ANodeList → Option Pos
  | .nil => none
  | .cons a _ => some (locOf a)

/-- The `VariableDeclaration` visitor of `getMethodBodyStart`
(mapHandler.ts lines 113–130): the `for (const decl of ...)` loop keeps
running after `path.stop()`, so the *last* declarator that fully matches
(identifier named `methodName`, arrow-function initializer with a non-empty
block body) wins. -/
def varDeclBodyStart (name : String) : ADeclList → Option Pos
  | .nil => none
  | .cons (.mk id init) tl =>
    let here : Option Pos :=
      if id = AKey.ident name then
        match init with
        | .arrowBlock (.cons s _) => some (locOf s)
        | _ => none
      else none
    match varDeclBodyStart name tl with
    | some p => some p
    | none => here

mutual

/-- Visitor dispatch plus pre-order descent of `getMethodBodyStart`'s
`traverse` (mapHandler.ts lines 73–131): at each node, fire the visitor for
its type; on a match the traversal stops with the first statement's start
location, otherwise descend into the children. -/
def bodyStartNode (name : String) : ANode → Option Pos
  | .funcDecl id body _ =>
    if id = some name ∧ body.isNil = false then body.firstLoc
    else bodyStartList name body
  | .classMethod key body _ =>
    if key = AKey.ident name ∧ body.isNil = false then body.firstLoc
    else bodyStartList name body
  | .objectMethod key body _ =>
    if key = AKey.ident name ∧ body.isNil = false then body.firstLoc
    else bodyStartList name body
  | .varDecl decls _ =>
    match varDeclBodyStart name decls with
    | some p => some p
    | none => bodyStartDecls name decls
  | .other children _ => bodyStartList name children

def bodyStartList (name : String) : ANodeList → Option Pos
  | .nil => none
  | .cons a tl =>
    match bodyStartNode name a with
    | some p => some p
    | none => bodyStartList name tl

def bodyStartDecls (name : String) : ADeclList → Option Pos
  | .nil => none
  | .cons (.mk _ init) tl =>
    match bodyStartInit name init with
    | some p => some p
    | none => bodyStartDecls name tl

def bodyStartInit (name : String) : AInit → Option Pos
  | .arrowBlock body => bodyStartList name body
  | .arrowExpr e => bodyStartNode name e
  | .otherExpr e => bodyStartNode name e
  | .noInit => none

end

/-- `getMethodBodyStart(ast, methodName)` (mapHandler.ts lines 67–134) on a
parsed program given as its top-level statement list. -/
def getMethodBodyStart (ast : ANodeList) (methodName : String) : Option Pos :=
  bodyStartList methodName ast

/-- `body.body.map(stmt => generate(stmt, {compact: true}).code).join("")` —
the statement list rendered by a code generator `g` and concatenated with no
separator. `g` stands for `@babel/generator` (a library call) and is passed
in as a parameter. -/
def genJoin (g : ANode → List Char) : ANodeList → List Char
  | .nil => []
  | .cons a tl => g a ++ genJoin g tl

/-- The `VariableDeclaration` visitor of `getMethodCodeInsideFunction`
(mapHandler.ts lines 280–294): `forEach` keeps running after `path.stop()`,
so the last declarator with a matching identifier and an arrow-function
initializer with a block body wins; the rendered statements of that block
(possibly the empty string) are the extracted code. -/
def varCodeMatch (g : ANode → List Char) (name : String) :
    ADeclList → Option (List Char)
  | .nil => none
  | .cons (.mk id init) tl =>
    let here : Option (List Char) :=
      if id = AKey.ident name then
        match init with
        | .arrowBlock b => some (genJoin g b)
        | _ => none
      else none
    match varCodeMatch g name tl with
    | some c => some c
    | none => here

mutual

/-- Visitor dispatch plus pre-order descent of the structural part of
`getMethodCodeInsideFunction`'s `traverse` (mapHandler.ts lines 247–295):
on a name match the traversal stops with the rendered, concatenated
statement list of the callable's body (note: no non-empty check here, unlike
`getMethodBodyStart`), otherwise it descends. -/
def structCodeNode (g : ANode → List Char) (name : String) :
    ANode → Option (List Char)
  | .funcDecl id body _ =>
    if id = some name then some (genJoin g body)
    else structCodeList g name body
  | .classMethod key body _ =>
    if key = AKey.ident name then some (genJoin g body)
    else structCodeList g name body
  | .objectMethod key body _ =>
    if key = AKey.ident name then some (genJoin g body)
    else structCodeList g name body
  | .varDecl decls _ =>
    match varCodeMatch g name decls with
    | some c => some c
    | none => structCodeDecls g name decls
  | .other children _ => structCodeList g name children

def structCodeList (g : ANode → List Char) (name : String) :
    ANodeList → Option (List Char)
  | .nil => none
  | .cons a tl =>
    match structCodeNode g name a with
    | some c => some c
    | none => structCodeList g name tl

def structCodeDecls (g : ANode → List Char) (name : String) :
    ADeclList → Option (List Char)
  | .nil => none
  | .cons (.mk _ init) tl =>
    match structCodeInit g name init with
    | some c => some c
    | none => structCodeDecls g name tl

def structCodeInit (g : ANode → List Char) (name : String) :
    AInit → Option (List Char)
  | .arrowBlock body => structCodeList g name body
  | .arrowExpr e => structCodeNode g name e
  | .otherExpr e => structCodeNode g name e
  | .noInit => none

end

/-- JavaScript `\s` on the characters relevant here (ASCII whitespace; the
Unicode space classes never occur in the claims under verification). -/
def isWsChar (c : Char) : Bool :=
  c == ' ' || c == '\t' || c == '\n' || c == '\r' || c == '\x0b' || c == '\x0c'

/-- Match a literal character sequence at the head of the input, returning
the rest. -/
def stripLit : List Char → List Char → Option (List Char)
  | [], s => some s
  | _ :: _, [] => none
  | c :: cs, d :: ds => if c = d then stripLit cs ds else none

/-- Split at the first occurrence of `c`: the characters before it and the
characters after it. `none` when `c` does not occur. -/
def splitAtChar (c : Char) : List Char → Option (List Char × List Char)
  | [] => none
  | d :: ds =>
    if d = c then some ([], ds)
    else (splitAtChar c ds).map (fun p => (d :: p.1, p.2))

/-- One anchored attempt of the fallback pattern
`function\s+<name>\s*\(([^)]*)\)\s*\x7b([\s\S]*?)\x7d\n?`
(mapHandler.ts lines 298–302), returning the second capture group (the text
between the opening brace and the first following closing brace). Faithful
for method names without whitespace or regex metacharacters, which is how the
source builds the pattern. -/
def fallbackAt (name : List Char) (s : List Char) : Option (List Char) := do
  let s1 ← stripLit ("function".toList) s
  match s1 with
  | [] => none
  | c :: _ =>
    if isWsChar c then do
      let s3 ← stripLit name (s1.dropWhile isWsChar)
      let s5 ← stripLit ['('] (s3.dropWhile isWsChar)
      let p6 ← splitAtChar ')' s5
      let s8 ← stripLit ['\x7b'] (p6.2.dropWhile isWsChar)
      let p9 ← splitAtChar '\x7d' s8
      some p9.1
    else none

/-- Leftmost-match search of the fallback pattern
(`fullSource.match(new RegExp(...))`). -/
def searchFallback (name : List Char) : List Char → Option (List Char)
  | [] => none
  | c :: rest =>
    match fallbackAt name (c :: rest) with
    | some b => some b
    | none => searchFallback name rest

/-- JavaScript `String.prototype.trim` on the captured body. -/
def trimWs (s : List Char) : List Char :=
  ((s.dropWhile isWsChar).reverse.dropWhile isWsChar).reverse

/-- The textual fallback of `getMethodCodeInsideFunction`
(mapHandler.ts lines 297–306): `match[2].trim()` when the pattern matches. -/
def regexFallback (fullSource : List Char) (methodName : String) :
    Option (List Char) :=
  (searchFallback methodName.toList fullSource).map trimWs

/-- `getMethodCodeInsideFunction(ast, fullSource, methodName)`
(mapHandler.ts lines 240–309). The JS guard `if (!code && fullSource)` is
truthiness: it fires when the structural result is `null` *or* the empty
string, and only when the raw source is non-empty; when the fallback pattern
does not match, the structural result (possibly `null`/empty) is returned
unchanged. -/
def getMethodCodeInsideFunction (g : ANode → List Char) (ast : ANodeList)
    (fullSource : List Char) (methodName : String) : Option (List Char) :=
  let code := structCodeList g methodName ast
  if (code = none ∨ code = some []) ∧ fullSource ≠ [] then
    match regexFallback fullSource methodName with
    | some b => some b
    | none => code
  else code

/-- Injection point (`where: HEAD | TAIL`). Named `wherek` below because
`where` is a Lean keyword. -/
inductive WhereK where
  | head
  | tail
deriving DecidableEq, Repr

/-- One injection record of a normalized mixin as the runner consumes it
(`injection.source_method`, `injection.code_method`, `injection.where`,
`injection.priority`, `injection.offset` — runner.ts lines 164–226).
`offset` models the optional `{row, col}` fixed offset of line 216; the
claims under verification only involve non-negative offsets. -/
structure RInj where
  source_method : Option String
  code_method : String
  wherek : WhereK
  priority : Int
  offset : Option (Nat × Nat)
deriving DecidableEq, Repr

/-- A normalized mixin as the runner consumes it (`mixin.target`,
`mixin.priority`, `mixin.code`, `mixin.injections`). -/
structure RMixin where
  target : String
  priority : Int
  code : Option (List Char)
  injections : List RInj
deriving DecidableEq, Repr

/-- An element of the runner's `sources` array, per its declared type
`{ sourceName: string; sourceCode: string }` (runner.ts line 97). -/
structure SourceEntry where
  sourceName : String
  sourceCode : List Char
deriving DecidableEq, Repr

/-- The state threaded through the injection loop: the growing bundle text,
the shared `injections` history, and the `injectErrors` counter
(runner.ts lines 152–154). -/
structure StState where
  bundle : List Char
  history : List Injection
  errors : Nat
deriving DecidableEq, Repr

/-- A record of one call to `injectAtHead` (runner.ts line 218): the history
argument passed, the position argument passed (generated position plus fixed
offset), the raw generated position, and the fragment. -/
structure CallRec where
  historyArg : List Injection
  posArg : Pos
  rawPos : Pos
  codeArg : List Char
deriving DecidableEq, Repr

instance : Inhabited CallRec := ⟨⟨[], ⟨0, 0⟩, ⟨0, 0⟩, []⟩⟩

/-- The history entry pushed for an applied call:
`injections.push({ pos: genPos, code: methodCode })` (runner.ts line 219). -/
def toInj (c : CallRec) : Injection := ⟨c.rawPos, c.codeArg⟩

/-- How the run can abort from inside the injection stage: a stage error
rethrown under `fail_on_error`; the uncaught `injectAtHead` out-of-bounds
throw; the uncaught `TAIL injection not yet implemented` throw
(runner.ts line 225); or the uncaught failure of
`parseSourceToAST(mixin.code!)` (runner.ts line 160, not inside any
try/catch). -/
inductive RunError where
  | fatal
  | outOfBounds
  | notImplemented
  | crash
deriving DecidableEq, Repr

/-- Insert into an ascending-by-key list, before the first element with a
key `≥` the inserted one (keeps equal keys in their original order). -/
def insertSorted {α : Type} (key : α → Int) (a : α) : List α → List α
  | [] => [a]
  | x :: xs =>
    if key x < key a then x :: insertSorted key a xs else a :: x :: xs

/-- Stable ascending sort by an integer key — the observable behavior of
JavaScript `Array.prototype.sort((a, b) => a.priority - b.priority)`
(stable per ES2019; runner.ts lines 151 and 162). -/
def stableSortBy {α : Type} (key : α → Int) : List α → List α
  | [] => []
  | a :: rest => insertSorted key a (stableSortBy key rest)

/-- The source-finding stage (runner.ts lines 94–121) under the
continue-on-error policy: for each loaded mixin in order,
`getSourceByFilename(cfg.webpack.sourcemap, mixin.target.replace("#", ""))`
— modelled by the oracle `fetch`, which covers the `#`-stripping and the
source-map lookup — either pushes an entry onto `sources` or bumps the
stage's error counter and skips. -/
def sourceStage (fetch : String → Option SourceEntry) :
    List RMixin → List SourceEntry × Nat
  | [] => ([], 0)
  | m :: ms =>
    let r := sourceStage fetch ms
    match fetch m.target with
    | some s => (s :: r.1, r.2)
    | none => (r.1, r.2 + 1)

/-- The parse stage (runner.ts lines 123–146) under the continue-on-error
policy: each found source is parsed (`parseSourceToAST`, modelled by the
oracle `parseFn`); failures bump the counter and are skipped, so
`parsedSources` only contains the successes, in order. -/
def parseStage (parseFn : List Char → Option ANodeList) :
    List SourceEntry → List ANodeList × Nat
  | [] => ([], 0)
  | s :: ss =>
    let r := parseStage parseFn ss
    match parseFn s.sourceCode with
    | some a => (a :: r.1, r.2)
    | none => (r.1, r.2 + 1)

/-- The pairing the injection loop actually performs (runner.ts lines
156–159): after `normalized.sort(...)` the loop index `i` selects
`normalized[i]` from the *sorted* list but `parsedSources[i]` and
`sources[i]` from the arrays built in pre-sort order (out-of-range indexing
yields `undefined`, hence `Option`). -/
def pairUp (sorted : List RMixin) (parsed : List ANodeList)
    (srcs : List SourceEntry) :
    List (RMixin × Option ANodeList × Option SourceEntry) :=
  sorted.enum.map (fun p => (p.2, parsed[p.1]?, srcs[p.1]?))

/-- The body of the per-injection loop (runner.ts lines 164–227), returning
the `injectAtHead` calls it performed and either the updated state or the
error that escaped the loop:

* a missing `source_method` is skipped silently (`continue`, line 165);
* a failed method lookup, generated-position resolution, or fragment
  extraction bumps `injectErrors` and skips (or rethrows under
  `fail_on_error`); the `if (!methodCode)` guard is truthiness, so an empty
  extracted string also counts as a failure;
* `where === "HEAD"` splices via `injectAtHead` at the generated position
  plus the fixed offset — an out-of-bounds throw is *not* caught — and on
  success pushes `{ pos: genPos, code: methodCode }` (the raw generated
  position) onto the history;
* `where === "TAIL"` throws, uncaught, regardless of configuration. -/
def processInj (fo : Bool) (genPosOf : String → Pos → Option Pos)
    (g : ANode → List Char) (ast? : Option ANodeList)
    (srcName? : Option String) (mixinAst : ANodeList)
    (mixinCode : List Char) (st : StState) (inj : RInj) :
    List CallRec × Except RunError StState :=
  match inj.source_method with
  | none => ([], .ok st)
  | some m =>
    match ast?.bind (fun ast => getMethodBodyStart ast m) with
    | none =>
      if fo then ([], .error .fatal)
      else ([], .ok ⟨st.bundle, st.history, st.errors + 1⟩)
    | some loc =>
      match srcName?.bind (fun sn => genPosOf sn loc) with
      | none =>
        if fo then ([], .error .fatal)
        else ([], .ok ⟨st.bundle, st.history, st.errors + 1⟩)
      | some genPos =>
        match getMethodCodeInsideFunction g mixinAst mixinCode inj.code_method with
        | none =>
          if fo then ([], .error .fatal)
          else ([], .ok ⟨st.bundle, st.history, st.errors + 1⟩)
        | some mc =>
          if mc = [] then
            if fo then ([], .error .fatal)
            else ([], .ok ⟨st.bundle, st.history, st.errors + 1⟩)
          else
            match inj.wherek with
            | .head =>
              let off := inj.offset.getD (0, 0)
              let pos : Pos := ⟨genPos.line + off.1, genPos.column + off.2⟩
              let call : CallRec := ⟨st.history, pos, genPos, mc⟩
              match injectAtHead st.bundle pos st.history mc with
              | .error _ => ([call], .error .outOfBounds)
              | .ok nb =>
                ([call], .ok ⟨nb, st.history ++ [⟨genPos, mc⟩], st.errors⟩)
            | .tail => ([], .error .notImplemented)

/-- Sequencing of per-item steps with `await`-style early abort, also
collecting the `injectAtHead` call trace. -/
def traceFold {β : Type}
    (step : StState → β → List CallRec × Except RunError StState) :
    StState → List β → List CallRec × Except RunError StState
  | st, [] => ([], .ok st)
  | st, b :: bs =>
    let r1 := step st b
    match r1.2 with
    | .error e => (r1.1, .error e)
    | .ok st' =>
      let r2 := traceFold step st' bs
      (r1.1 ++ r2.1, r2.2)

/-- One iteration of the per-mixin loop (runner.ts lines 156–228): parse the
mixin's own code (`parseSourceToAST(mixin.code!)`, line 160 — a missing code
field or a parse failure throws uncaught), sort the mixin's injections by
priority, and run the per-injection loop against the `ast`/`source` slots the
index-based pairing supplied. -/
def processMixinItem (fo : Bool) (genPosOf : String → Pos → Option Pos)
    (g : ANode → List Char) (parseFn : List Char → Option ANodeList)
    (st : StState)
    (item : RMixin × Option ANodeList × Option SourceEntry) :
    List CallRec × Except RunError StState :=
  match item.1.code with
  | none => ([], .error .crash)
  | some mcode =>
    match parseFn mcode with
    | none => ([], .error .crash)
    | some mixinAst =>
      traceFold
        (processInj fo genPosOf g item.2.1
          (item.2.2.map SourceEntry.sourceName) mixinAst mcode)
        st (stableSortBy (fun i => i.priority) item.1.injections)

/-- The whole injection stage (runner.ts lines 148–228): sort the loaded
mixins by priority (after `sources`/`parsedSources` were already built in
load order) and run the per-mixin loop starting from the loaded bundle, an
empty injection history, and a zero error counter. -/
def injectionStage (fo : Bool) (genPosOf : String → Pos → Option Pos)
    (g : ANode → List Char) (parseFn : List Char → Option ANodeList)
    (bundle0 : List Char) (normalized : List RMixin)
    (parsed : List ANodeList) (srcs : List SourceEntry) :
    List CallRec × Except RunError StState :=
  traceFold (processMixinItem fo genPosOf g parseFn) ⟨bundle0, [], 0⟩
    (pairUp (stableSortBy (fun m => m.priority) normalized) parsed srcs)

/-- The call trace is properly chained from a starting history: each call to
`injectAtHead` received exactly the starting history extended by the
injections applied by the calls before it, in order. -/
def Chain (h0 : List Injection) : List CallRec → Prop
  | [] => True
  | c :: cs => c.historyArg = h0 ∧ Chain (h0 ++ [toInj c]) cs

/-- C3 failing input, first mixin: targets `"A"`, priority 2. -/
def mixinA : RMixin := ⟨"A", 2, some ['a'], []⟩

/-- C3 failing input, second mixin: targets `"B"`, priority 1. -/
def mixinB : RMixin := ⟨"B", 1, some ['b'], []⟩

/-- C3 failing input: the source-map lookup finds a distinct source for each
target. -/
def fetchC3 : String → Option SourceEntry := fun t =>
  if t = "A" then some ⟨"A.ts", ['a']⟩
  else if t = "B" then some ⟨"B.ts", ['b']⟩
  else none

/-- C3 failing input: each source parses to a distinct AST. -/
def parseC3 : List Char → Option ANodeList := fun s =>
  if s = ['a'] then some ANodeList.nil
  else if s = ['b'] then some (.cons (.other .nil ⟨1, 0⟩) .nil)
  else none

/-- Concrete target-program AST: `function f() { <stmt at (1,2)> }`. -/
def astE : ANodeList :=
  .cons (.funcDecl (some "f") (.cons (.other .nil ⟨1, 2⟩) .nil) ⟨1, 0⟩) .nil

/-- Concrete mixin-code AST: `function m() { <stmt> }`. -/
def mixAstE : ANodeList :=
  .cons (.funcDecl (some "m") (.cons (.other .nil ⟨1, 0⟩) .nil) ⟨1, 0⟩) .nil

mutual

/-- Does `name` occur anywhere in the tree in one of the name positions the
four visitors inspect (function-declaration id, class/object-method
identifier key, variable-declarator identifier id)? Used to state "no shape
matches". -/
def namedNode (name : String) : ANode → Bool
  | .funcDecl id body _ => decide (id = some name) || namedList name body
  | .classMethod key body _ => decide (key = AKey.ident name) || namedList name body
  | .objectMethod key body _ => decide (key = AKey.ident name) || namedList name body
  | .varDecl decls _ => namedDecls name decls
  | .other children _ => namedList name children

def namedList (name : String) : ANodeList → Bool
  | .nil => false
  | .cons a tl => namedNode name a || namedList name tl

def namedDecls (name : String) : ADeclList → Bool
  | .nil => false
  | .cons (.mk id init) tl =>
    decide (id = AKey.ident name) || namedInit name init || namedDecls name tl

def namedInit (name : String) : AInit → Bool
  | .arrowBlock body => namedList name body
  | .arrowExpr e => namedNode name e
  | .otherExpr e => namedNode name e
  | .noInit => false

end

end Hydra

namespace Hydra

theorem splitNl_ne_nil (s : List Char) : splitNl s ≠ [] := by
  cases s with
  | nil => simp [splitNl]
  | cons c rest =>
    simp only [splitNl]
    split <;> simp

/-- `s.split("\n").length - 1` — the quantity the source calls `addedLines` —
is the number of newline characters in `s`. -/
theorem splitNl_length (s : List Char) :
    (splitNl s).length = s.count '\n' + 1 := by
  induction s with
  | nil => simp [splitNl]
  | cons c rest ih =>
    simp only [splitNl]
    by_cases h : c = '\n'
    · subst h
      simp [List.count_cons, ih]
    · have hne := splitNl_ne_nil rest
      simp only [if_neg h]
      cases hr : splitNl rest with
      | nil => exact absurd hr hne
      | cons l ls =>
        simp [hr] at ih
        simp [List.count_cons, h, ih]

theorem adjustStep_eq_specContribution (pos : Pos) (acc : Nat × Nat)
    (p : Injection) : adjustStep pos acc p = specContribution pos acc p := by
  simp [adjustStep, specContribution, splitNl_length, countNl]

theorem foldl_adjustStep_eq (pos : Pos) (acc : Nat × Nat)
    (l : List Injection) :
    l.foldl (adjustStep pos) acc = l.foldl (specContribution pos) acc := by
  induction l generalizing acc with
  | nil => rfl
  | cons p l ih => simp [List.foldl_cons, adjustStep_eq_specContribution, ih]

/-- C1: the offset adjustment of `injectAtHead` is a fold over the
prior-injection list whose per-injection contribution has exactly the three
claimed cases: an injection on an earlier line adds its newline count to the
line offset and, when its code has no newline, additionally its code length
to the column offset; an injection on the same line at a column `≤` the raw
column adds its newline count to the line offset when multi-line and its code
length to the column offset otherwise; any other injection contributes
nothing (`specContribution` restates those cases verbatim). -/
theorem C1_adjust_is_three_case_fold (pos : Pos) (prev : List Injection) :
    adjust pos prev =
      ⟨pos.line + (prev.foldl (specContribution pos) (0, 0)).1,
        pos.column + (prev.foldl (specContribution pos) (0, 0)).2⟩ := by
  simp [adjust, foldl_adjustStep_eq]

/-- C2 counterexample: with one prior single-line injection of length 2 at
`(line 5, column 3)`, the raw position `(6, 0)` is adjusted to `(6, 2)` —
not left unchanged as the claim states: the earlier-line single-line
injection also shifts the column of a later line. -/
theorem C2_counterexample :
    adjust ⟨6, 0⟩ [⟨⟨5, 3⟩, ['x', 'y']⟩] = ⟨6, 2⟩ ∧
      (⟨6, 2⟩ : Pos) ≠ ⟨6, 0⟩ := by decide

/-- C2 amended: with one prior injection of a single-line fragment of
length `L` recorded at `(5, 3)`, the adjustment maps `(5, 10)` to
`(5, 10 + L)` — and maps `(6, 0)` to `(6, L)`: the earlier single-line
injection shifts the column on every later line as well, because the
earlier-line branch adds the fragment length to the column offset whenever
the fragment has no newline. -/
theorem C2_single_line_shift (code : List Char) (h : countNl code = 0) :
    adjust ⟨5, 10⟩ [⟨⟨5, 3⟩, code⟩] = ⟨5, 10 + code.length⟩ ∧
      adjust ⟨6, 0⟩ [⟨⟨5, 3⟩, code⟩] = ⟨6, code.length⟩ := by
  constructor <;>
    simp [adjust, adjustStep_eq_specContribution, specContribution, h]

theorem C2_single_line_shift_witness :
    countNl ['x', 'y'] = 0 ∧
      (adjust ⟨5, 10⟩ [⟨⟨5, 3⟩, ['x', 'y']⟩] = ⟨5, 10 + (['x', 'y'] : List Char).length⟩ ∧
        adjust ⟨6, 0⟩ [⟨⟨5, 3⟩, ['x', 'y']⟩] = ⟨6, (['x', 'y'] : List Char).length⟩) :=
  ⟨by decide, C2_single_line_shift ['x', 'y'] (by decide)⟩

/-- C5: when the adjusted line is within the bundle's line count,
`injectAtHead` rebuilds the bundle from the unchanged lines before the
adjusted line, the adjusted line spliced as
`text before the column ++ fragment ++ text from the column on`, and the
unchanged lines after it; when the adjusted line is out of range it fails
with the out-of-bounds error. -/
theorem C5_splice_frame (bundle code : List Char) (pos : Pos)
    (prev : List Injection) :
    (1 ≤ (adjust pos prev).line ∧
        (adjust pos prev).line ≤ (splitNl bundle).length →
      injectAtHead bundle pos prev code =
        .ok (List.intercalate ['\n']
          ((splitNl bundle).take ((adjust pos prev).line - 1) ++
            (((splitNl bundle).getD ((adjust pos prev).line - 1) []).take
                (adjust pos prev).column ++
              code ++
              ((splitNl bundle).getD ((adjust pos prev).line - 1) []).drop
                (adjust pos prev).column) ::
            (splitNl bundle).drop (adjust pos prev).line))) ∧
    (¬(1 ≤ (adjust pos prev).line ∧
        (adjust pos prev).line ≤ (splitNl bundle).length) →
      injectAtHead bundle pos prev code = .error .outOfBounds) := by
  constructor
  · intro h
    have hout : ¬((adjust pos prev).line = 0 ∨
        (splitNl bundle).length ≤ (adjust pos prev).line - 1) := by omega
    have hlt : (adjust pos prev).line - 1 < (splitNl bundle).length := by omega
    rw [injectAtHead]
    simp only [if_neg hout]
    rw [List.set_eq_take_cons_drop _ hlt]
    have : (adjust pos prev).line - 1 + 1 = (adjust pos prev).line := by omega
    rw [this]
  · intro h
    have hout : (adjust pos prev).line = 0 ∨
        (splitNl bundle).length ≤ (adjust pos prev).line - 1 := by omega
    rw [injectAtHead, if_pos hout]

theorem C5_splice_frame_witness :
    (1 ≤ (adjust ⟨2, 1⟩ []).line ∧
        (adjust ⟨2, 1⟩ []).line ≤ (splitNl ('a' :: 'b' :: '\n' :: 'c' :: 'd' :: [])).length ∧
      injectAtHead ('a' :: 'b' :: '\n' :: 'c' :: 'd' :: []) ⟨2, 1⟩ [] ['X'] =
        .ok (List.intercalate ['\n']
          ((splitNl ('a' :: 'b' :: '\n' :: 'c' :: 'd' :: [])).take ((adjust ⟨2, 1⟩ []).line - 1) ++
            (((splitNl ('a' :: 'b' :: '\n' :: 'c' :: 'd' :: [])).getD ((adjust ⟨2, 1⟩ []).line - 1) []).take
                (adjust ⟨2, 1⟩ []).column ++
              ['X'] ++
              ((splitNl ('a' :: 'b' :: '\n' :: 'c' :: 'd' :: [])).getD ((adjust ⟨2, 1⟩ []).line - 1) []).drop
                (adjust ⟨2, 1⟩ []).column) ::
            (splitNl ('a' :: 'b' :: '\n' :: 'c' :: 'd' :: [])).drop (adjust ⟨2, 1⟩ []).line))) ∧
    injectAtHead ['a'] ⟨3, 0⟩ [] ['X'] = .error .outOfBounds := by
  refine ⟨⟨by decide, by decide,
    (C5_splice_frame ('a' :: 'b' :: '\n' :: 'c' :: 'd' :: []) ['X'] ⟨2, 1⟩ []).1 (by decide)⟩,
    (C5_splice_frame ['a'] ['X'] ⟨3, 0⟩ []).2 (by decide)⟩

/-- C10: `injectAtHead` raises an error exactly when the adjusted line is
outside `[1, number of lines]`; the adjusted column is never bounds-checked —
when it exceeds the length of the target line the splice clamps, appending
the fragment at the end of that line. -/
theorem C10_bounds_iff_and_column_clamp (bundle code : List Char) (pos : Pos)
    (prev : List Injection) :
    ((∃ e, injectAtHead bundle pos prev code = .error e) ↔
      ¬(1 ≤ (adjust pos prev).line ∧
          (adjust pos prev).line ≤ (splitNl bundle).length)) ∧
    (1 ≤ (adjust pos prev).line →
      (adjust pos prev).line ≤ (splitNl bundle).length →
      ((splitNl bundle).getD ((adjust pos prev).line - 1) []).length <
        (adjust pos prev).column →
      injectAtHead bundle pos prev code =
        .ok (List.intercalate ['\n']
          ((splitNl bundle).set ((adjust pos prev).line - 1)
            (((splitNl bundle).getD ((adjust pos prev).line - 1) []) ++ code)))) := by
  constructor
  · constructor
    · rintro ⟨e, he⟩
      intro hin
      have hout : ¬((adjust pos prev).line = 0 ∨
          (splitNl bundle).length ≤ (adjust pos prev).line - 1) := by omega
      rw [injectAtHead, if_neg hout] at he
      exact Except.noConfusion he
    · intro h
      have hout : (adjust pos prev).line = 0 ∨
          (splitNl bundle).length ≤ (adjust pos prev).line - 1 := by omega
      exact ⟨.outOfBounds, by rw [injectAtHead, if_pos hout]⟩
  · intro h1 h2 hcol
    have hout : ¬((adjust pos prev).line = 0 ∨
        (splitNl bundle).length ≤ (adjust pos prev).line - 1) := by omega
    rw [injectAtHead]
    simp only [if_neg hout]
    have htake : ((splitNl bundle).getD ((adjust pos prev).line - 1) []).take
        (adjust pos prev).column =
        (splitNl bundle).getD ((adjust pos prev).line - 1) [] :=
      List.take_of_length_le (by omega)
    have hdrop : ((splitNl bundle).getD ((adjust pos prev).line - 1) []).drop
        (adjust pos prev).column = [] :=
      List.drop_eq_nil_of_le (by omega)
    rw [htake, hdrop, List.append_nil]

theorem varDeclBodyStart_none_of_unnamed (name : String) :
    ∀ ds : ADeclList, namedDecls name ds = false →
      varDeclBodyStart name ds = none
  | .nil, _ => rfl
  | .cons (.mk id init) tl, h => by
    simp only [namedDecls, Bool.or_eq_false_iff, decide_eq_false_iff_not] at h
    simp only [varDeclBodyStart, varDeclBodyStart_none_of_unnamed name tl h.2,
      if_neg h.1.1]

mutual

theorem bodyStartNode_none_of_unnamed (name : String) :
    ∀ n : ANode, namedNode name n = false → bodyStartNode name n = none
  | .funcDecl id body _, h => by
    simp only [namedNode, Bool.or_eq_false_iff, decide_eq_false_iff_not] at h
    have hni : ¬(id = some name ∧ body.isNil = false) := fun hc => h.1 hc.1
    simp only [bodyStartNode, if_neg hni]
    exact bodyStartList_none_of_unnamed name body h.2
  | .classMethod key body _, h => by
    simp only [namedNode, Bool.or_eq_false_iff, decide_eq_false_iff_not] at h
    have hni : ¬(key = AKey.ident name ∧ body.isNil = false) := fun hc => h.1 hc.1
    simp only [bodyStartNode, if_neg hni]
    exact bodyStartList_none_of_unnamed name body h.2
  | .objectMethod key body _, h => by
    simp only [namedNode, Bool.or_eq_false_iff, decide_eq_false_iff_not] at h
    have hni : ¬(key = AKey.ident name ∧ body.isNil = false) := fun hc => h.1 hc.1
    simp only [bodyStartNode, if_neg hni]
    exact bodyStartList_none_of_unnamed name body h.2
  | .varDecl decls _, h => by
    simp only [namedNode] at h
    simp only [bodyStartNode, varDeclBodyStart_none_of_unnamed name decls h]
    exact bodyStartDecls_none_of_unnamed name decls h
  | .other children _, h => by
    simp only [namedNode] at h
    simp only [bodyStartNode]
    exact bodyStartList_none_of_unnamed name children h

theorem bodyStartList_none_of_unnamed (name : String) :
    ∀ l : ANodeList, namedList name l = false → bodyStartList name l = none
  | .nil, _ => rfl
  | .cons a tl, h => by
    simp only [namedList, Bool.or_eq_false_iff] at h
    simp only [bodyStartList, bodyStartNode_none_of_unnamed name a h.1]
    exact bodyStartList_none_of_unnamed name tl h.2

theorem bodyStartDecls_none_of_unnamed (name : String) :
    ∀ ds : ADeclList, namedDecls name ds = false → bodyStartDecls name ds = none
  | .nil, _ => rfl
  | .cons (.mk id init) tl, h => by
    simp only [namedDecls, Bool.or_eq_false_iff] at h
    simp only [bodyStartDecls, bodyStartInit_none_of_unnamed name init h.1.2]
    exact bodyStartDecls_none_of_unnamed name tl h.2

theorem bodyStartInit_none_of_unnamed (name : String) :
    ∀ i : AInit, namedInit name i = false → bodyStartInit name i = none
  | .arrowBlock body, h => bodyStartList_none_of_unnamed name body h
  | .arrowExpr e, h => bodyStartNode_none_of_unnamed name e h
  | .otherExpr e, h => bodyStartNode_none_of_unnamed name e h
  | .noInit, _ => rfl

end

/-- C6: `getMethodBodyStart` recognizes the named callable in each of the
four shapes — standalone function declaration, class method, object-literal
method, and variable declaration initialized with a block-bodied arrow
function — and returns the start position of the first statement inside its
body (not the callable's own position); a matched body with zero statements
is treated as not found; and when the name occurs in none of the four shape
name positions the result is `none` (the total function never raises). -/
theorem C6_method_shape_coverage (name : String) (s : ANode) (tl : ANodeList)
    (l₁ l₂ : Pos) :
    getMethodBodyStart
        (.cons (.funcDecl (some name) (.cons s tl) l₁) .nil) name =
      some (locOf s) ∧
    getMethodBodyStart
        (.cons (.other (.cons (.classMethod (.ident name) (.cons s tl) l₁) .nil) l₂) .nil)
        name = some (locOf s) ∧
    getMethodBodyStart
        (.cons (.other (.cons (.objectMethod (.ident name) (.cons s tl) l₁) .nil) l₂) .nil)
        name = some (locOf s) ∧
    getMethodBodyStart
        (.cons (.varDecl (.cons (.mk (.ident name) (.arrowBlock (.cons s tl))) .nil) l₁) .nil)
        name = some (locOf s) ∧
    getMethodBodyStart (.cons (.funcDecl (some name) .nil l₁) .nil) name = none ∧
    getMethodBodyStart
        (.cons (.other (.cons (.classMethod (.ident name) .nil l₁) .nil) l₂) .nil)
        name = none ∧
    getMethodBodyStart
        (.cons (.other (.cons (.objectMethod (.ident name) .nil l₁) .nil) l₂) .nil)
        name = none ∧
    getMethodBodyStart
        (.cons (.varDecl (.cons (.mk (.ident name) (.arrowBlock .nil)) .nil) l₁) .nil)
        name = none ∧
    (∀ ast : ANodeList, namedList name ast = false →
      getMethodBodyStart ast name = none) := by
  refine ⟨?_, ?_, ?_, ?_, ?_, ?_, ?_, ?_,
    fun ast h => bodyStartList_none_of_unnamed name ast h⟩ <;>
    simp [getMethodBodyStart, bodyStartList, bodyStartNode, bodyStartDecls,
      bodyStartInit, varDeclBodyStart, ANodeList.isNil, ANodeList.firstLoc]

theorem C6_method_shape_coverage_witness :
    getMethodBodyStart
        (.cons (.funcDecl (some "f") (.cons (.other .nil ⟨2, 2⟩) .nil) ⟨1, 0⟩) .nil) "f" =
      some (locOf (.other .nil ⟨2, 2⟩)) ∧
    getMethodBodyStart ANodeList.nil "f" = none :=
  ⟨(C6_method_shape_coverage "f" (.other .nil ⟨2, 2⟩) .nil ⟨1, 0⟩ ⟨1, 0⟩).1,
    (C6_method_shape_coverage "f" (.other .nil ⟨2, 2⟩) .nil ⟨1, 0⟩ ⟨1, 0⟩).2.2.2.2.2.2.2.2
      ANodeList.nil rfl⟩

theorem chain_append (c1 : List CallRec) :
    ∀ (h0 : List Injection) (c2 : List CallRec), Chain h0 c1 →
      Chain (h0 ++ c1.map toInj) c2 → Chain h0 (c1 ++ c2) := by
  induction c1 with
  | nil => intro h0 c2 _ H2; simpa using H2
  | cons c cs ih =>
    intro h0 c2 H1 H2
    refine ⟨H1.1, ?_⟩
    exact ih _ _ H1.2 (by simpa [List.append_assoc] using H2)

theorem chain_getD (cs : List CallRec) :
    ∀ (h0 : List Injection) (k : Nat), Chain h0 cs → k < cs.length →
      (cs.getD k default).historyArg = h0 ++ (cs.take k).map toInj := by
  induction cs with
  | nil => intro h0 k _ hk; simp at hk
  | cons c cs ih =>
    intro h0 k H hk
    cases k with
    | zero => simpa using H.1
    | succ k =>
      have := ih (h0 ++ [toInj c]) k H.2 (by simpa using hk)
      simpa [List.append_assoc] using this

theorem processInj_hist (fo : Bool) (genPosOf : String → Pos → Option Pos)
    (g : ANode → List Char) (ast? : Option ANodeList)
    (srcName? : Option String) (mixinAst : ANodeList)
    (mixinCode : List Char) (st : StState) (inj : RInj) :
    Chain st.history
        (processInj fo genPosOf g ast? srcName? mixinAst mixinCode st inj).1 ∧
      ∀ st',
        (processInj fo genPosOf g ast? srcName? mixinAst mixinCode st inj).2 =
          .ok st' →
        st'.history = st.history ++
          ((processInj fo genPosOf g ast? srcName? mixinAst mixinCode st inj).1.map
            toInj) := by
  unfold processInj
  repeat' split
  all_goals simp only []
  all_goals repeat' split
  all_goals refine ⟨by simp [Chain], ?_⟩
  all_goals intro st' h
  all_goals
    first
      | exact Except.noConfusion h
      | (cases h; simp [toInj])

theorem traceFold_hist {β : Type}
    (step : StState → β → List CallRec × Except RunError StState)
    (Hstep : ∀ st b, Chain st.history (step st b).1 ∧
      ∀ st', (step st b).2 = .ok st' →
        st'.history = st.history ++ ((step st b).1.map toInj)) :
    ∀ (l : List β) (st : StState),
      Chain st.history (traceFold step st l).1 ∧
        ∀ st', (traceFold step st l).2 = .ok st' →
          st'.history = st.history ++ ((traceFold step st l).1.map toInj) := by
  intro l
  induction l with
  | nil =>
    intro st
    refine ⟨trivial, ?_⟩
    intro st' h
    cases h
    simp [traceFold]
  | cons b bs ih =>
    intro st
    simp only [traceFold]
    cases hr : (step st b).2 with
    | error e =>
      simp only [hr]
      exact ⟨(Hstep st b).1, fun st' h => Except.noConfusion h⟩
    | ok st1 =>
      simp only [hr]
      have h1 := Hstep st b
      have h2 := ih st1
      refine ⟨?_, ?_⟩
      · exact chain_append _ _ _ h1.1 (h1.2 st1 hr ▸ h2.1)
      · intro st' h
        rw [h2.2 st' h, h1.2 st1 hr]
        simp [List.append_assoc]

theorem processMixinItem_hist (fo : Bool)
    (genPosOf : String → Pos → Option Pos) (g : ANode → List Char)
    (parseFn : List Char → Option ANodeList) (st : StState)
    (item : RMixin × Option ANodeList × Option SourceEntry) :
    Chain st.history (processMixinItem fo genPosOf g parseFn st item).1 ∧
      ∀ st',
        (processMixinItem fo genPosOf g parseFn st item).2 = .ok st' →
        st'.history = st.history ++
          ((processMixinItem fo genPosOf g parseFn st item).1.map toInj) := by
  unfold processMixinItem
  split
  · exact ⟨trivial, fun st' h => Except.noConfusion h⟩
  · split
    · exact ⟨trivial, fun st' h => Except.noConfusion h⟩
    · exact traceFold_hist _
        (fun st b => processInj_hist fo genPosOf g _ _ _ _ st b) _ st

/-- C4: throughout a run, the history argument of the k-th `injectAtHead`
call is exactly the k previously applied injections in application order
(each recorded as `{pos: genPos, code}` with the *raw* generated position —
`toInj` uses `rawPos`, not the offset-adjusted `posArg`); and on a completed
stage the final shared history is exactly the applied calls, in order — the
history is only ever extended by appending, never mutated, removed or
reordered. -/
theorem C4_history_exact_order (fo : Bool)
    (genPosOf : String → Pos → Option Pos) (g : ANode → List Char)
    (parseFn : List Char → Option ANodeList) (bundle0 : List Char)
    (normalized : List RMixin) (parsed : List ANodeList)
    (srcs : List SourceEntry) :
    (∀ k,
        k < (injectionStage fo genPosOf g parseFn bundle0 normalized parsed srcs).1.length →
      (((injectionStage fo genPosOf g parseFn bundle0 normalized parsed srcs).1.getD
          k default).historyArg =
        ((injectionStage fo genPosOf g parseFn bundle0 normalized parsed srcs).1.take
          k).map toInj)) ∧
    ∀ st',
      (injectionStage fo genPosOf g parseFn bundle0 normalized parsed srcs).2 =
        .ok st' →
      st'.history =
        (injectionStage fo genPosOf g parseFn bundle0 normalized parsed srcs).1.map
          toInj := by
  have H := traceFold_hist (processMixinItem fo genPosOf g parseFn)
    (fun st b => processMixinItem_hist fo genPosOf g parseFn st b)
    (pairUp (stableSortBy (fun m => m.priority) normalized) parsed srcs)
    ⟨bundle0, [], 0⟩
  constructor
  · intro k hk
    have hc : Chain ([] : List Injection)
        (injectionStage fo genPosOf g parseFn bundle0 normalized parsed srcs).1 :=
      H.1
    simpa using chain_getD _ [] k hc hk
  · intro st' h
    simpa using H.2 st' h

theorem C4_history_exact_order_witness :
    1 < (injectionStage false (fun _ _ => some ⟨1, 1⟩) (fun _ => ['X'])
        (fun _ => some mixAstE) ['a', 'b', 'c']
        [⟨"T", 0, some ['c'],
          [⟨some "f", "m", .head, 0, none⟩, ⟨some "f", "m", .head, 0, none⟩]⟩]
        [astE] [⟨"T.ts", ['t']⟩]).1.length ∧
    ((injectionStage false (fun _ _ => some ⟨1, 1⟩) (fun _ => ['X'])
        (fun _ => some mixAstE) ['a', 'b', 'c']
        [⟨"T", 0, some ['c'],
          [⟨some "f", "m", .head, 0, none⟩, ⟨some "f", "m", .head, 0, none⟩]⟩]
        [astE] [⟨"T.ts", ['t']⟩]).1.getD 1 default).historyArg =
      ((injectionStage false (fun _ _ => some ⟨1, 1⟩) (fun _ => ['X'])
        (fun _ => some mixAstE) ['a', 'b', 'c']
        [⟨"T", 0, some ['c'],
          [⟨some "f", "m", .head, 0, none⟩, ⟨some "f", "m", .head, 0, none⟩]⟩]
        [astE] [⟨"T.ts", ['t']⟩]).1.take 1).map toInj :=
  ⟨by decide,
    (C4_history_exact_order false (fun _ _ => some ⟨1, 1⟩) (fun _ => ['X'])
      (fun _ => some mixAstE) ['a', 'b', 'c']
      [⟨"T", 0, some ['c'],
        [⟨some "f", "m", .head, 0, none⟩, ⟨some "f", "m", .head, 0, none⟩]⟩]
      [astE] [⟨"T.ts", ['t']⟩]).1 1 (by decide)⟩

/-- C3 evaluated at the failing input: two mixins loaded in the order
[priority 2 targeting "A", priority 1 targeting "B"], both stages
succeeding. After `normalized.sort`, step 0 processes `mixinB` but is paired
with `parsedSources[0]`/`sources[0]` — the parse and source of **mixinA's**
target ("A.ts"), not `mixinB`'s own ("B.ts"): the index-based pairing is
done against the arrays built in pre-sort order. -/
theorem C3_sorted_pairing_mismatch :
    (pairUp (stableSortBy (fun m => m.priority) [mixinA, mixinB])
        (parseStage parseC3 (sourceStage fetchC3 [mixinA, mixinB]).1).1
        (sourceStage fetchC3 [mixinA, mixinB]).1).head? =
      some (mixinB, some ANodeList.nil, some ⟨"A.ts", ['a']⟩) ∧
    fetchC3 mixinB.target = some ⟨"B.ts", ['b']⟩ ∧
    parseC3 ['b'] = some (.cons (.other .nil ⟨1, 0⟩) .nil) ∧
    ("A.ts" : String) ≠ "B.ts" ∧
    ANodeList.nil ≠ ANodeList.cons (.other .nil ⟨1, 0⟩) .nil := by
  refine ⟨rfl, rfl, rfl, by decide, fun h => ANodeList.noConfusion h⟩

/-- C8 counterexample: with `fail_on_error = false` and a single TAIL
injection whose method location, generated position and fragment all
resolve, the injection stage does not skip-and-continue: it returns the
uncaught `NotImplemented` error (so the error counter is discarded, no
further injection runs, and the final write is never reached), instead of
the claimed per-injection handling. -/
theorem C8_counterexample :
    injectionStage false (fun _ _ => some ⟨1, 1⟩) (fun _ => ['X'])
        (fun _ => some mixAstE) ['a', 'b']
        [⟨"T", 0, some ['c'], [⟨some "f", "m", .tail, 0, none⟩]⟩]
        [astE] [⟨"T.ts", ['t']⟩] =
      ([], .error .notImplemented) := by rfl

/-- C8 amended: an injection with `where = "TAIL"` whose method location,
generated position and fragment all resolved raises `NotImplemented`
*uncaught*: irrespective of `fail_on_error` the per-injection step yields the
error (no counter increment, no skip), and the surrounding loop aborts
without processing the remaining injections — so the final bundle is not
written. -/
theorem C8_tail_uncaught (fo : Bool) (genPosOf : String → Pos → Option Pos)
    (g : ANode → List Char) (ast : ANodeList) (sn : String)
    (mixinAst : ANodeList) (mixinCode : List Char) (st : StState)
    (cm m : String) (p : Int) (off : Option (Nat × Nat)) (loc genPos : Pos)
    (mc : List Char) (rest : List RInj)
    (hloc : getMethodBodyStart ast m = some loc)
    (hgen : genPosOf sn loc = some genPos)
    (hmc : getMethodCodeInsideFunction g mixinAst mixinCode cm = some mc)
    (hne : mc ≠ []) :
    processInj fo genPosOf g (some ast) (some sn) mixinAst mixinCode st
        ⟨some m, cm, .tail, p, off⟩ = ([], .error .notImplemented) ∧
    traceFold (processInj fo genPosOf g (some ast) (some sn) mixinAst mixinCode)
        st (⟨some m, cm, .tail, p, off⟩ :: rest) =
      ([], .error .notImplemented) := by
  have h1 : processInj fo genPosOf g (some ast) (some sn) mixinAst mixinCode st
      ⟨some m, cm, .tail, p, off⟩ = ([], .error .notImplemented) := by
    simp [processInj, hloc, hgen, hmc, hne]
  exact ⟨h1, by simp [traceFold, h1]⟩

theorem C8_tail_uncaught_witness :
    processInj false (fun _ _ => some ⟨1, 1⟩) (fun _ => ['X']) (some astE)
        (some "T.ts") mixAstE ['c'] ⟨['a'], [], 0⟩
        ⟨some "f", "m", .tail, 0, none⟩ = ([], .error .notImplemented) ∧
    traceFold (processInj false (fun _ _ => some ⟨1, 1⟩) (fun _ => ['X'])
        (some astE) (some "T.ts") mixAstE ['c'])
        ⟨['a'], [], 0⟩ [⟨some "f", "m", .tail, 0, none⟩] =
      ([], .error .notImplemented) :=
  C8_tail_uncaught false (fun _ _ => some ⟨1, 1⟩) (fun _ => ['X']) astE "T.ts"
    mixAstE ['c'] ⟨['a'], [], 0⟩ "m" "f" 0 none ⟨1, 2⟩ ⟨1, 1⟩ ['X'] []
    rfl rfl rfl (by decide)

/-- C9 counterexample: an injection whose `source_method` is absent is
passed over by the injection stage with the error counter left at zero (and
no report): the stage returns successfully with nothing applied and
`errors = 0`, refuting "no item is ever passed over without incrementing a
counter". -/
theorem C9_counterexample :
    injectionStage false (fun _ _ => none) (fun _ => [])
        (fun _ => some ANodeList.nil) ['a']
        [⟨"T", 0, some [], [⟨none, "c", .head, 0, none⟩]⟩]
        [ANodeList.nil] [⟨"S", []⟩] =
      ([], .ok ⟨['a'], [], 0⟩) := by rfl

/-- C9 amended: during the injection stage every skip increments the
stage's error counter **except** one case — an injection with no
`source_method` is skipped silently (`continue` before any counting), with
no counter increment and no report; failed method lookup, failed
generated-position resolution, and failed (or empty) fragment extraction
each bump the counter by exactly one. -/
theorem C9_error_counting (genPosOf : String → Pos → Option Pos)
    (g : ANode → List Char) (ast? : Option ANodeList)
    (srcName? : Option String) (mixinAst : ANodeList) (mixinCode : List Char)
    (st : StState) (cm : String) (wk : WhereK) (p : Int)
    (off : Option (Nat × Nat)) (m : String) :
    (processInj false genPosOf g ast? srcName? mixinAst mixinCode st
        ⟨none, cm, wk, p, off⟩ = ([], .ok st)) ∧
    ((ast?.bind fun ast => getMethodBodyStart ast m) = none →
      processInj false genPosOf g ast? srcName? mixinAst mixinCode st
          ⟨some m, cm, wk, p, off⟩ =
        ([], .ok ⟨st.bundle, st.history, st.errors + 1⟩)) ∧
    (∀ loc, (ast?.bind fun ast => getMethodBodyStart ast m) = some loc →
      (srcName?.bind fun sn => genPosOf sn loc) = none →
      processInj false genPosOf g ast? srcName? mixinAst mixinCode st
          ⟨some m, cm, wk, p, off⟩ =
        ([], .ok ⟨st.bundle, st.history, st.errors + 1⟩)) ∧
    (∀ loc genPos, (ast?.bind fun ast => getMethodBodyStart ast m) = some loc →
      (srcName?.bind fun sn => genPosOf sn loc) = some genPos →
      (getMethodCodeInsideFunction g mixinAst mixinCode cm = none ∨
        getMethodCodeInsideFunction g mixinAst mixinCode cm = some []) →
      processInj false genPosOf g ast? srcName? mixinAst mixinCode st
          ⟨some m, cm, wk, p, off⟩ =
        ([], .ok ⟨st.bundle, st.history, st.errors + 1⟩)) := by
  refine ⟨by simp [processInj], ?_, ?_, ?_⟩
  · intro hl
    simp [processInj, hl]
  · intro loc hl hg
    simp [processInj, hl, hg]
  · rintro loc genPos hl hg (hmc | hmc) <;> simp [processInj, hl, hg, hmc]

theorem C9_error_counting_witness :
    (processInj false (fun _ _ => none) (fun _ => []) none none
        ANodeList.nil [] ⟨['a'], [], 0⟩ ⟨none, "c", .head, 0, none⟩ =
      ([], .ok ⟨['a'], [], 0⟩)) ∧
    (processInj false (fun _ _ => none) (fun _ => []) none none
        ANodeList.nil [] ⟨['a'], [], 0⟩ ⟨some "f", "c", .head, 0, none⟩ =
      ([], .ok ⟨['a'], [], 1⟩)) ∧
    (processInj false (fun _ _ => none) (fun _ => []) (some astE) none
        ANodeList.nil [] ⟨['a'], [], 0⟩ ⟨some "f", "c", .head, 0, none⟩ =
      ([], .ok ⟨['a'], [], 1⟩)) ∧
    (processInj false (fun _ _ => some ⟨1, 1⟩) (fun _ => []) (some astE)
        (some "S") mixAstE ['c'] ⟨['a'], [], 0⟩
        ⟨some "f", "m", .head, 0, none⟩ =
      ([], .ok ⟨['a'], [], 1⟩)) :=
  ⟨(C9_error_counting (fun _ _ => none) (fun _ => []) none none
      ANodeList.nil [] ⟨['a'], [], 0⟩ "c" .head 0 none "f").1,
    (C9_error_counting (fun _ _ => none) (fun _ => []) none none
      ANodeList.nil [] ⟨['a'], [], 0⟩ "c" .head 0 none "f").2.1 rfl,
    (C9_error_counting (fun _ _ => none) (fun _ => []) (some astE) none
      ANodeList.nil [] ⟨['a'], [], 0⟩ "c" .head 0 none "f").2.2.1 ⟨1, 2⟩ rfl rfl,
    (C9_error_counting (fun _ _ => some ⟨1, 1⟩) (fun _ => []) (some astE)
      (some "S") mixAstE ['c'] ⟨['a'], [], 0⟩ "m" .head 0 none "f").2.2.2
      ⟨1, 2⟩ ⟨1, 1⟩ rfl rfl (Or.inr rfl)⟩

/-- C7: on a mixin program `function foo() \x7b a(); b(); \x7d` (a function
declaration named `foo` with two body statements), extraction succeeds via
the structural path and returns the two rendered statements concatenated in
original order; the textual fallback is consulted only when the structural
path yields nothing (`null`/empty) and raw source text is available; and the
result is `null` only when the structural path found nothing and the
fallback also failed (or no raw source was available). -/
theorem C7_extract_structural_then_fallback (g : ANode → List Char)
    (sA sB : ANode) (l : Pos) (src : List Char) :
    (g sA ++ g sB ≠ [] →
      getMethodCodeInsideFunction g
          (.cons (.funcDecl (some "foo") (.cons sA (.cons sB .nil)) l) .nil)
          src "foo" = some (g sA ++ g sB) ∧
      structCodeList g "foo"
          (.cons (.funcDecl (some "foo") (.cons sA (.cons sB .nil)) l) .nil) =
        some (g sA ++ g sB)) ∧
    (∀ (ast : ANodeList) (nm : String) (c : List Char),
      structCodeList g nm ast = some c → c ≠ [] →
      getMethodCodeInsideFunction g ast src nm = some c) ∧
    (∀ (ast : ANodeList) (nm : String),
      getMethodCodeInsideFunction g ast [] nm = structCodeList g nm ast) ∧
    (∀ (ast : ANodeList) (nm : String),
      getMethodCodeInsideFunction g ast src nm = none →
      structCodeList g nm ast = none ∧
        (src = [] ∨ regexFallback src nm = none)) := by
  refine ⟨?_, ?_, ?_, ?_⟩
  · intro hne
    have hstruct : structCodeList g "foo"
        (.cons (.funcDecl (some "foo") (.cons sA (.cons sB .nil)) l) .nil) =
        some (g sA ++ g sB) := by
      simp [structCodeList, structCodeNode, genJoin]
    refine ⟨?_, hstruct⟩
    rw [getMethodCodeInsideFunction]
    simp only [hstruct]
    rw [if_neg]
    rintro ⟨h1 | h1, -⟩
    · exact Option.noConfusion h1
    · exact hne (Option.some.injEq _ _ ▸ h1)
  · intro ast nm c hs hc
    rw [getMethodCodeInsideFunction]
    simp only [hs]
    rw [if_neg]
    rintro ⟨h1 | h1, -⟩
    · exact Option.noConfusion h1
    · exact hc (Option.some.injEq _ _ ▸ h1)
  · intro ast nm
    rw [getMethodCodeInsideFunction]
    rw [if_neg]
    rintro ⟨-, h2⟩
    exact h2 rfl
  · intro ast nm h
    rw [getMethodCodeInsideFunction] at h
    by_cases hcond : (structCodeList g nm ast = none ∨
        structCodeList g nm ast = some []) ∧ src ≠ []
    · rw [if_pos hcond] at h
      cases hf : regexFallback src nm with
      | some b => simp [hf] at h
      | none =>
        rw [hf] at h
        exact ⟨h, Or.inr rfl⟩
    · rw [if_neg hcond] at h
      refine ⟨h, ?_⟩
      by_cases hsrc : src = []
      · exact Or.inl hsrc
      · exact absurd ⟨Or.inl h, hsrc⟩ hcond

theorem C7_extract_structural_then_fallback_witness :
    (getMethodCodeInsideFunction (fun _ => ['a'])
        (.cons (.funcDecl (some "foo")
          (.cons (.other .nil ⟨1, 17⟩) (.cons (.other .nil ⟨1, 22⟩) .nil)) ⟨1, 0⟩) .nil)
        ['z'] "foo" =
      some ((fun (_ : ANode) => ['a']) (.other .nil ⟨1, 17⟩) ++
        (fun (_ : ANode) => ['a']) (.other .nil ⟨1, 22⟩)) ∧
      structCodeList (fun _ => ['a']) "foo"
        (.cons (.funcDecl (some "foo")
          (.cons (.other .nil ⟨1, 17⟩) (.cons (.other .nil ⟨1, 22⟩) .nil)) ⟨1, 0⟩) .nil) =
      some ((fun (_ : ANode) => ['a']) (.other .nil ⟨1, 17⟩) ++
        (fun (_ : ANode) => ['a']) (.other .nil ⟨1, 22⟩))) ∧
    getMethodCodeInsideFunction (fun _ => ['a']) ANodeList.nil [] "x" =
      structCodeList (fun _ => ['a']) "x" ANodeList.nil ∧
    (structCodeList (fun _ => ['a']) "x" ANodeList.nil = none ∧
      (['z'] = ([] : List Char) ∨ regexFallback ['z'] "x" = none)) :=
  ⟨(C7_extract_structural_then_fallback (fun _ => ['a'])
      (.other .nil ⟨1, 17⟩) (.other .nil ⟨1, 22⟩) ⟨1, 0⟩ ['z']).1 (by decide),
    (C7_extract_structural_then_fallback (fun _ => ['a'])
      (.other .nil ⟨1, 17⟩) (.other .nil ⟨1, 22⟩) ⟨1, 0⟩ ['z']).2.2.1 ANodeList.nil "x",
    (C7_extract_structural_then_fallback (fun _ => ['a'])
      (.other .nil ⟨1, 17⟩) (.other .nil ⟨1, 22⟩) ⟨1, 0⟩ ['z']).2.2.2 ANodeList.nil "x"
      (by decide)⟩

theorem C10_bounds_iff_and_column_clamp_witness :
    ((∃ e, injectAtHead ['a'] ⟨3, 0⟩ [] ['X'] = .error e) ↔
      ¬(1 ≤ (adjust ⟨3, 0⟩ []).line ∧
          (adjust ⟨3, 0⟩ []).line ≤ (splitNl ['a']).length)) ∧
    injectAtHead ['a', 'b'] ⟨1, 7⟩ [] ['X'] =
      .ok (List.intercalate ['\n']
        ((splitNl ['a', 'b']).set ((adjust ⟨1, 7⟩ []).line - 1)
          (((splitNl ['a', 'b']).getD ((adjust ⟨1, 7⟩ []).line - 1) []) ++ ['X']))) :=
  ⟨(C10_bounds_iff_and_column_clamp ['a'] ['X'] ⟨3, 0⟩ []).1,
    (C10_bounds_iff_and_column_clamp ['a', 'b'] ['X'] ⟨1, 7⟩ []).2
      (by decide) (by decide) (by decide)⟩

end Hydra
